import Mathlib

/-
Verification of the icva_parser repository: a PDF score-report extractor
(parse_VEA.py) and a CSV-to-database loader (load_VEA_to_database.py).
Lines of text are modelled as `List Char`; tokenization, the date-pattern
scan, per-line error recovery, CSV serialization and the loader's
configuration and insert pipeline are embedded shallowly below.
-/

namespace ICVA

/-- Whitespace characters recognised by Python str.split with no argument
(ASCII space, tab, newline, carriage return, vertical tab, form feed). -/
def isWS (c : Char) : Bool :=
  c = ' ' || c = '\t' || c = '\n' || c = '\r' || c = '\x0b' || c = '\x0c'

/-- Tokenizer worker: acc holds the characters of the current token in
reverse; whitespace flushes it, end of input flushes a nonempty remainder. -/
def splitWsAux (acc : List Char) : List Char → List (List Char)
  | [] => if acc.isEmpty then [] else [acc.reverse]
  | c :: cs =>
    if isWS c then
      if acc.isEmpty then splitWsAux [] cs
      else acc.reverse :: splitWsAux [] cs
    else splitWsAux (c :: acc) cs

/-- Python line.split(): split on runs of whitespace, producing no empty
tokens. -/
def splitWs (l : List Char) : List (List Char) :=
  splitWsAux [] l

/-- Embedding of re.match with pattern \d{2}-[A-Z]{3}-\d{4}: a prefix match,
anchored at the start of the token only; characters may follow the first
eleven. -/
def matchesDate (t : List Char) : Bool :=
  match t with
  | a :: b :: h1 :: c :: d :: e :: h2 :: f :: g :: h :: i :: _ =>
    a.isDigit && b.isDigit && (h1 = '-') && c.isUpper && d.isUpper &&
    e.isUpper && (h2 = '-') && f.isDigit && g.isDigit && h.isDigit && i.isDigit
  | _ => false

/-- The full eleven-character date shape (two digits, hyphen, three uppercase
letters, hyphen, four digits), with nothing after: used to state claims about
which prefixes the regular expression accepts. -/
def dateShape (t : List Char) : Bool :=
  match t with
  | [a, b, h1, c, d, e, h2, f, g, h, i] =>
    a.isDigit && b.isDigit && (h1 = '-') && c.isUpper && d.isUpper &&
    e.isUpper && (h2 = '-') && f.isDigit && g.isDigit && h.isDigit && i.isDigit
  | _ => false

/-- One parsed student record, fields in the order of the CSV header written
by parse_VEA.py. -/
structure ExamRow where
  icvaID : List Char
  fullName : List Char
  testDate : List Char
  scaleScore : List Char
  totalPercentCorrect : List Char
  anatomy : List Char
  physiology : List Char
  pharmacology : List Char
  microbiology : List Char
  pathology : List Char
deriving Repr, DecidableEq

/-- The exceptions parse_data_line can raise: IndexError from tokens[0] on an
empty token list, StopIteration from next() when no token matches the date
pattern, and the explicit ValueError carrying its message. -/
inductive PError where
  | indexError : PError
  | stopIteration : PError
  | valueError (msg : List Char) : PError
deriving Repr, DecidableEq

/-- The ValueError message built by parse_data_line:
"Expected 7 scores, got {n} in line: {line}". -/
def errMsg (n : Nat) (line : List Char) : List Char :=
  "Expected 7 scores, got ".data ++ (Nat.repr n).data ++ " in line: ".data ++ line

/-- Body of parse_data_line after tokenization: the first token is the id,
the first token matching the date pattern (the scan starting at the id
itself) is the test date, the tokens strictly between them joined by single
spaces form the full name, and exactly 7 tokens must follow the date. -/
def parseTokens (line : List Char) (tokens : List (List Char)) :
    Except PError ExamRow :=
  match tokens with
  | [] => .error .indexError
  | t0 :: rest =>
    match List.findIdx? matchesDate (t0 :: rest) with
    | none => .error .stopIteration
    | some di =>
      let nameTokens := ((t0 :: rest).take di).drop 1
      let fullName := List.intercalate [' '] nameTokens
      let testDate := (t0 :: rest).getD di []
      let scores := (t0 :: rest).drop (di + 1)
      if scores.length = 7 then
        .ok ⟨t0, fullName, testDate,
             scores.getD 0 [], scores.getD 1 [], scores.getD 2 [],
             scores.getD 3 [], scores.getD 4 [], scores.getD 5 [],
             scores.getD 6 []⟩
      else .error (.valueError (errMsg scores.length line))

/-- Embedding of parse_data_line: split on whitespace, then parse the token
list as parseTokens describes. -/
def parse_data_line (line : List Char) : Except PError ExamRow :=
  parseTokens line (splitWs line)

/-- The per-line loop of parse_VEA.main: try to parse each candidate line,
append the record on success, catch any Exception and continue on failure. -/
def processLines (lines : List (List Char)) : List ExamRow :=
  match lines with
  | [] => []
  | l :: ls =>
    match parse_data_line l with
    | .ok r => r :: processLines ls
    | .error _ => processLines ls

/-- An environment, as os.getenv sees it: a variable name mapped to its
value, none when the variable is unset. -/
def EnvMap : Type := List Char → Option (List Char)

/-- The test v in (None, "") from load_env: a value is missing when the
variable is unset or set to the empty string. -/
def missingVal (v : Option (List Char)) : Bool :=
  match v with
  | none => true
  | some s => s.isEmpty

/-- The five settings built by load_env, in the dict's insertion order, each
paired with the value read from its environment variable. -/
def cfgPairs (env : EnvMap) : List (List Char × Option (List Char)) :=
  [("host".data, env "DB_HOST".data),
   ("user".data, env "DB_USER".data),
   ("password".data, env "DB_PASS".data),
   ("database".data, env "DB_NAME".data),
   ("table".data, env "DB_TABLE".data)]

/-- The keys load_env reports as missing: settings whose value is unset or
empty, the table setting excepted. -/
def missingKeys (env : EnvMap) : List (List Char) :=
  (cfgPairs env).filterMap
    (fun p => if missingVal p.2 = true ∧ p.1 ≠ "table".data
              then some p.1 else none)

/-- The configuration dict returned by load_env; every value is kept exactly
as os.getenv returned it, so the table entry can be None. -/
structure Cfg where
  host : Option (List Char)
  user : Option (List Char)
  password : Option (List Char)
  dbname : Option (List Char)
  table : Option (List Char)
deriving Repr, DecidableEq

/-- The RuntimeError message of load_env:
"Missing required env vars: {comma-joined keys}". -/
def loadEnvErr (env : EnvMap) : List Char :=
  "Missing required env vars: ".data ++
    List.intercalate ", ".data (missingKeys env)

/-- Embedding of load_env: read the five settings, raise the RuntimeError
naming every missing required one, otherwise return the configuration. -/
def load_env (env : EnvMap) : Except (List Char) Cfg :=
  if missingKeys env = [] then
    .ok ⟨env "DB_HOST".data, env "DB_USER".data, env "DB_PASS".data,
         env "DB_NAME".data, env "DB_TABLE".data⟩
  else .error (loadEnvErr env)

/-- Python str() of an optional string as an f-string renders it: None
becomes the four characters N o n e; this is how an unset table setting
reaches the CREATE TABLE statement. -/
def pyStr (v : Option (List Char)) : List Char :=
  match v with
  | none => "None".data
  | some s => s

/-- One row as the loader inserts it: the value of the primary-key column
icva_id declared by create_table, and the nine remaining column values. -/
structure LoadRow where
  icva_id : List Char
  rest : List (List Char)
deriving Repr, DecidableEq

/-- Modelled from the spec: the storage layer (MariaDB, not part of this
repository) enforcing the PRIMARY KEY on icva_id that create_table declares.
The bulk append-only INSERT adds the rows in order; the first row whose key
is already present fails the statement, and the surrounding transaction
leaves no partial state (an error result carries no table). -/
def insertAllRows (table : List LoadRow) :
    List LoadRow → Except (List Char) (List LoadRow)
  | [] => .ok table
  | r :: rs =>
    if r.icva_id ∈ table.map (fun x => x.icva_id) then
      .error ("Duplicate entry ".data ++ r.icva_id)
    else insertAllRows (table ++ [r]) rs

/-- The externally visible I/O steps of the loader's main, in program order:
reading the CSV, opening the database connection, the CREATE TABLE IF NOT
EXISTS statement, and the bulk insert. -/
inductive Effect where
  | readInput : Effect
  | connect : Effect
  | createTable : Effect
  | insertRows : Effect
deriving Repr, DecidableEq

/-- Embedding of the loader's main over an abstract input and database
state: load_env runs first, and on failure nothing else happens (create_engine
opens no connection by itself); otherwise the CSV is read, the table is
created if needed, and the rows are appended unfiltered in one batch. -/
def runLoader (env : EnvMap) (csvRows : List LoadRow) (db : List LoadRow) :
    List Effect × Except (List Char) (List LoadRow) :=
  match load_env env with
  | .error m => ([], .error m)
  | .ok _ =>
    ([.readInput, .connect, .createTable, .insertRows],
     insertAllRows db csvRows)

/-- A dataframe cell: raw text as read from the CSV, or a parsed calendar
date (day, month, year). -/
inductive Cell where
  | raw (s : List Char) : Cell
  | date (d : Nat) (m : Nat) (y : Nat) : Cell
deriving Repr, DecidableEq

/-- Lowercasing used by the case-insensitive %b month match. -/
def toLowerL (s : List Char) : List Char := s.map Char.toLower

/-- Month number of a %b month abbreviation, case-insensitive. -/
def monthNum (s : List Char) : Option Nat :=
  match List.findIdx? (fun m => toLowerL s = m.data)
    ["jan", "feb", "mar", "apr", "may", "jun",
     "jul", "aug", "sep", "oct", "nov", "dec"] with
  | some i => some (i + 1)
  | none => none

/-- Numeric value of a digit string. -/
def natOfDigits (s : List Char) : Nat :=
  s.foldl (fun n c => 10 * n + (c.toNat - 48)) 0

/-- Parse of the fixed %d-%b-%Y date format: one or two day digits, a month
abbreviation and a four-digit year, separated by hyphens. -/
def parseDMY (s : List Char) : Option (Nat × Nat × Nat) :=
  match s.splitOn '-' with
  | [d, m, y] =>
    if 1 ≤ d.length ∧ d.length ≤ 2 ∧ d.all Char.isDigit ∧
       y.length = 4 ∧ y.all Char.isDigit then
      match monthNum m with
      | some mn => some (natOfDigits d, mn, natOfDigits y)
      | none => none
    else none
  | _ => none

/-- pd.to_datetime on one cell with format %d-%b-%Y and errors raised on any
cell that does not parse. -/
def cellToDate (c : Cell) : Except (List Char) Cell :=
  match c with
  | .raw s =>
    match parseDMY s with
    | some d => .ok (.date d.1 d.2.1 d.2.2)
    | none => .error ("time data does not match format".data ++ s)
  | .date d m y => .ok (.date d m y)

/-- Date conversion of a whole column, failing on the first bad cell. -/
def colToDate : List Cell → Except (List Char) (List Cell)
  | [] => .ok []
  | c :: cs =>
    match cellToDate c with
    | .error e => .error e
    | .ok c2 =>
      match colToDate cs with
      | .error e => .error e
      | .ok cs2 => .ok (c2 :: cs2)

/-- A dataframe column: its name and its cells. -/
structure DFCol where
  name : List Char
  cells : List Cell
deriving Repr, DecidableEq

/-- Worker of the date-normalization step: reparse every column named
test_date, keep every other column untouched. -/
def normCols : List DFCol → Except (List Char) (List DFCol)
  | [] => .ok []
  | col :: cols =>
    if col.name = "test_date".data then
      match colToDate col.cells with
      | .error e => .error e
      | .ok cs =>
        match normCols cols with
        | .error e => .error e
        | .ok cols2 => .ok (⟨col.name, cs⟩ :: cols2)
    else
      match normCols cols with
      | .error e => .error e
      | .ok cols2 => .ok (col :: cols2)

/-- Embedding of the loader's date-normalization step: if "test_date" is
among the columns, reparse that column; otherwise leave the dataframe
alone. -/
def normalizeTestDate (df : List DFCol) : Except (List Char) (List DFCol) :=
  if df.any (fun col => col.name = "test_date".data) then normCols df
  else .ok df

/-- A default column, used with getD in frame statements. -/
def dfDefault : DFCol := ⟨[], []⟩

/-- A field has no carriage return and no line feed; every field written by
the extractor satisfies this because tokens carry no whitespace at all. -/
def noCRLF (f : List Char) : Prop := ∀ c ∈ f, c ≠ '\r' ∧ c ≠ '\n'

instance (f : List Char) : Decidable (noCRLF f) :=
  inferInstanceAs (Decidable (∀ c ∈ f, c ≠ '\r' ∧ c ≠ '\n'))

/-- QUOTE_MINIMAL of the csv module: a field is quoted exactly when it
contains the delimiter, the quote character, or a line-terminator
character. -/
def needsQuote (f : List Char) : Bool :=
  f.any (fun c => c = ',' || c = '"' || c = '\r' || c = '\n')

/-- Quote doubling used inside quoted fields. -/
def escQuotes : List Char → List Char
  | [] => []
  | c :: cs =>
    if c = '"' then '"' :: '"' :: escQuotes cs else c :: escQuotes cs

/-- One field as csv.writer emits it. -/
def encField (f : List Char) : List Char :=
  if needsQuote f then '"' :: (escQuotes f ++ ['"']) else f

/-- One row as csv.writer emits it: encoded fields joined by commas. -/
def encRow (fs : List (List Char)) : List Char :=
  List.intercalate [','] (fs.map encField)

/-- The fixed 10-column header written by parse_VEA.main. -/
def headerFields : List (List Char) :=
  ["ICVA ID".data, "Full Name".data, "Test Date".data, "Scale Score".data,
   "Total Percent Correct".data, "Anatomy".data, "Physiology".data,
   "Pharmacology".data, "Microbiology".data, "Pathology".data]

/-- The field values of a record, in header order, as DictWriter writes
them. -/
def rowFields (r : ExamRow) : List (List Char) :=
  [r.icvaID, r.fullName, r.testDate, r.scaleScore, r.totalPercentCorrect,
   r.anatomy, r.physiology, r.pharmacology, r.microbiology, r.pathology]

/-- The CSV file written by parse_VEA.main: the header row then one row per
record, each terminated by the writer's CRLF. -/
def writeCSV (rows : List ExamRow) : List Char :=
  ((headerFields :: rows.map rowFields).map
    (fun fs => encRow fs ++ ['\r', '\n'])).flatten

mutual

/-- CSV field lexer, unquoted state: a comma ends the field, a quote enters
the quoted state, anything else belongs to the field. -/
def pUnq (acc : List Char) : List Char → List (List Char)
  | [] => [acc.reverse]
  | c :: rest =>
    if c = ',' then acc.reverse :: pUnq [] rest
    else if c = '"' then pQ acc rest
    else pUnq (c :: acc) rest

/-- CSV field lexer, quoted state: a quote may close the field or start a
doubled quote, anything else belongs to the field. -/
def pQ (acc : List Char) : List Char → List (List Char)
  | [] => [acc.reverse]
  | c :: rest =>
    if c = '"' then pQQ acc rest
    else pQ (c :: acc) rest

/-- CSV field lexer, just after a quote inside a quoted field: another quote
is a literal quote, a comma ends the field, anything else continues the
field unquoted. -/
def pQQ (acc : List Char) : List Char → List (List Char)
  | [] => [acc.reverse]
  | c :: rest =>
    if c = '"' then pQ ('"' :: acc) rest
    else if c = ',' then acc.reverse :: pUnq [] rest
    else pUnq (c :: acc) rest

end

mutual

/-- Record splitter: cut the file at CRLF line terminators, dropping the
final terminator. -/
def sRec (acc : List Char) : List Char → List (List Char)
  | [] => if acc.isEmpty then [] else [acc.reverse]
  | c :: rest =>
    if c = '\r' then sRecCR acc rest
    else sRec (c :: acc) rest

/-- Record splitter just after a carriage return: a line feed ends the
record, otherwise the carriage return was literal. -/
def sRecCR (acc : List Char) : List Char → List (List Char)
  | [] => [('\r' :: acc).reverse]
  | c :: rest =>
    if c = '\n' then acc.reverse :: sRec [] rest
    else if c = '\r' then sRecCR ('\r' :: acc) rest
    else sRec (c :: '\r' :: acc) rest

end

/-- Reading the delimited file back (the lexing the loader's CSV read
performs): split into records, then lex each record into fields. -/
def readCSV (file : List Char) : List (List (List Char)) :=
  (sRec [] file).map (fun l => pUnq [] l)

/-- A concrete environment with the four required variables set and DB_TABLE
unset. -/
def envNoTable : EnvMap := fun k =>
  if k = "DB_HOST".data then some "cvmdb.westernu.edu".data
  else if k = "DB_USER".data then some "vea_user".data
  else if k = "DB_PASS".data then some "secret".data
  else if k = "DB_NAME".data then some "cvm_prod".data
  else none

/-- A concrete environment where DB_USER is empty and DB_NAME is unset. -/
def envMissingTwo : EnvMap := fun k =>
  if k = "DB_HOST".data then some "cvmdb.westernu.edu".data
  else if k = "DB_USER".data then some "".data
  else if k = "DB_PASS".data then some "secret".data
  else none

/-- Helper: the first index of a satisfying element placed after a prefix of
non-satisfying elements. -/
lemma findIdx?_first {α : Type} (p : α → Bool) (pre : List α) (x : α)
    (post : List α) (hpre : ∀ t ∈ pre, p t = false) (hx : p x = true) :
    List.findIdx? p (pre ++ x :: post) = some pre.length := by
  induction pre with
  | nil => simp [List.findIdx?_cons, hx]
  | cons a as ih =>
    have ha : p a = false := hpre a (by simp)
    have has : ∀ t ∈ as, p t = false := fun t ht => hpre t (by simp [ht])
    simp [List.findIdx?_cons, ha, ih has]

/-- Helper: findIdx? is none when no element satisfies the predicate. -/
lemma findIdx?_none {α : Type} (p : α → Bool) (l : List α)
    (h : ∀ t ∈ l, p t = false) : List.findIdx? p l = none := by
  induction l with
  | nil => rfl
  | cons a as ih =>
    have ha : p a = false := h a (by simp)
    have has : ∀ t ∈ as, p t = false := fun t ht => h t (by simp [ht])
    simp [List.findIdx?_cons, ha, ih has]

/-- Helper: getD at the index right after a prefix. -/
lemma getD_after_prefix {α : Type} (pre : List α) (x : α) (post : List α)
    (d : α) : (pre ++ x :: post).getD pre.length d = x := by
  induction pre with
  | nil => rfl
  | cons a as ih =>
    rw [List.cons_append, List.length_cons, List.getD_cons_succ]
    exact ih

/-- Helper: drop everything up to and including the element after a prefix. -/
lemma drop_after_prefix {α : Type} (pre : List α) (x : α) (post : List α) :
    (pre ++ x :: post).drop (pre.length + 1) = post := by
  induction pre with
  | nil => rfl
  | cons a as ih => simp [ih]

/-- Helper: evaluation of parseTokens on a token list decomposed as id, name
tokens, the first date-matching token, and the trailing tokens. -/
lemma parseTokens_decomp (line id : List Char) (names : List (List Char))
    (date : List Char) (scores : List (List Char))
    (hid : matchesDate id = false)
    (hnames : ∀ t ∈ names, matchesDate t = false)
    (hdate : matchesDate date = true) :
    parseTokens line (id :: (names ++ date :: scores)) =
      (if scores.length = 7 then
        .ok ⟨id, List.intercalate [' '] names, date,
             scores.getD 0 [], scores.getD 1 [], scores.getD 2 [],
             scores.getD 3 [], scores.getD 4 [], scores.getD 5 [],
             scores.getD 6 []⟩
      else .error (.valueError (errMsg scores.length line))) := by
  have hpre : ∀ t ∈ id :: names, matchesDate t = false := by
    intro t ht
    rcases List.mem_cons.mp ht with h | h
    · exact h ▸ hid
    · exact hnames t h
  have hfind : List.findIdx? matchesDate (id :: (names ++ date :: scores)) =
      some (names.length + 1) := by
    have := findIdx?_first matchesDate (id :: names) date scores hpre hdate
    simpa using this
  have htake : ((id :: (names ++ date :: scores)).take (names.length + 1)).drop 1
      = names := by
    simp [List.take_append_of_le_length, List.take_left']
  have hgetD : (id :: (names ++ date :: scores)).getD (names.length + 1) [] =
      date := by
    rw [List.getD_cons_succ]
    exact getD_after_prefix names date scores []
  have hdrop : (id :: (names ++ date :: scores)).drop (names.length + 1 + 1) =
      scores := by
    rw [List.drop_succ_cons]
    exact drop_after_prefix names date scores
  unfold parseTokens
  simp only [hfind, htake, hgetD, hdrop]

/-- Helper: evaluation of parseTokens once the index of the first
date-matching token is known. -/
lemma parseTokens_found (line t0 : List Char) (rest : List (List Char))
    (di : Nat)
    (hfind : List.findIdx? matchesDate (t0 :: rest) = some di) :
    parseTokens line (t0 :: rest) =
      (if ((t0 :: rest).drop (di + 1)).length = 7 then
        .ok ⟨t0, List.intercalate [' '] (((t0 :: rest).take di).drop 1),
             (t0 :: rest).getD di [],
             ((t0 :: rest).drop (di + 1)).getD 0 [],
             ((t0 :: rest).drop (di + 1)).getD 1 [],
             ((t0 :: rest).drop (di + 1)).getD 2 [],
             ((t0 :: rest).drop (di + 1)).getD 3 [],
             ((t0 :: rest).drop (di + 1)).getD 4 [],
             ((t0 :: rest).drop (di + 1)).getD 5 [],
             ((t0 :: rest).drop (di + 1)).getD 6 []⟩
      else .error (.valueError
             (errMsg ((t0 :: rest).drop (di + 1)).length line))) := by
  unfold parseTokens
  simp only [hfind]

/-- C1: a whitespace-tokenized line of the shape id, name tokens, first
date-matching token, then exactly seven trailing tokens parses to the record
with that id, the name tokens joined by single spaces, that date, and the
seven trailing tokens as the scores in order. -/
theorem claim_C1_parse_valid_line (line id : List Char)
    (names : List (List Char))
    (date s0 s1 s2 s3 s4 s5 s6 : List Char)
    (hsplit : splitWs line =
      id :: (names ++ date :: [s0, s1, s2, s3, s4, s5, s6]))
    (hid : matchesDate id = false)
    (hnames : ∀ t ∈ names, matchesDate t = false)
    (hdate : matchesDate date = true) :
    parse_data_line line =
      .ok ⟨id, List.intercalate [' '] names, date,
           s0, s1, s2, s3, s4, s5, s6⟩ := by
  unfold parse_data_line
  rw [hsplit,
    parseTokens_decomp line id names date [s0, s1, s2, s3, s4, s5, s6]
      hid hnames hdate]
  simp [List.getD]

/-- C1 witness: the spec example line parses to the expected record with a
multi-word name. -/
theorem claim_C1_witness :
    parse_data_line
      "ICVA0001 Jane Q Public 15-MAY-2025 450 88 90 85 92 88 91".data =
      .ok ⟨"ICVA0001".data, "Jane Q Public".data, "15-MAY-2025".data,
           "450".data, "88".data, "90".data, "85".data, "92".data,
           "88".data, "91".data⟩ := by
  have h := claim_C1_parse_valid_line
    "ICVA0001 Jane Q Public 15-MAY-2025 450 88 90 85 92 88 91".data
    "ICVA0001".data ["Jane".data, "Q".data, "Public".data] "15-MAY-2025".data
    "450".data "88".data "90".data "85".data "92".data "88".data "91".data
    (by decide) (by decide) (by decide) (by decide)
  simpa using h

/-- C2: on any line containing a date-matching token (the first such token
sitting at index di), parse_data_line produces an error, rather than a
record, exactly when the number of tokens after the date token is not 7. -/
theorem claim_C2_error_iff_not_seven_trailing (line : List Char) (di : Nat)
    (hfind : List.findIdx? matchesDate (splitWs line) = some di) :
    (∃ e, parse_data_line line = .error e) ↔
      ((splitWs line).drop (di + 1)).length ≠ 7 := by
  cases htok : splitWs line with
  | nil =>
    rw [htok] at hfind
    simp at hfind
  | cons t0 rest =>
    rw [htok] at hfind
    unfold parse_data_line
    rw [htok, parseTokens_found line t0 rest di hfind]
    by_cases h7 : ((t0 :: rest).drop (di + 1)).length = 7
    · simp at h7
      simp [h7]
    · simp at h7
      simp [h7]

/-- C2 witness: a line with 6 trailing tokens and a line with 8 trailing
tokens are both rejected. -/
theorem claim_C2_witness :
    (∃ e, parse_data_line
      "ICVA0001 Jane Q Public 15-MAY-2025 450 88 90 85 92 88".data =
        .error e) ∧
    (∃ e, parse_data_line
      "ICVA0001 Jane Q Public 15-MAY-2025 450 88 90 85 92 88 91 77".data =
        .error e) := by
  constructor
  · exact (claim_C2_error_iff_not_seven_trailing
      "ICVA0001 Jane Q Public 15-MAY-2025 450 88 90 85 92 88".data 4
      (by decide)).mpr (by decide)
  · exact (claim_C2_error_iff_not_seven_trailing
      "ICVA0001 Jane Q Public 15-MAY-2025 450 88 90 85 92 88 91 77".data 4
      (by decide)).mpr (by decide)

/-- Helper: the per-line loop distributes over concatenation of the line
list. -/
lemma processLines_append (xs ys : List (List Char)) :
    processLines (xs ++ ys) = processLines xs ++ processLines ys := by
  induction xs with
  | nil => rfl
  | cons l ls ih =>
    cases h : parse_data_line l <;> simp [processLines, h, ih]

/-- Helper: the per-line loop keeps exactly the successfully parsed lines in
order. -/
lemma processLines_filterMap (ls : List (List Char)) :
    processLines ls = ls.filterMap (fun l => (parse_data_line l).toOption) := by
  induction ls with
  | nil => rfl
  | cons l ls ih =>
    cases h : parse_data_line l <;> simp [processLines, h, ih, Except.toOption]

/-- C3: a candidate line with a date token but the wrong number of trailing
tokens makes parse_data_line raise the ValueError whose message contains the
token count and the offending line; the per-line loop drops that line and
continues, and in general the loop's output is exactly the records of the
lines that parse successfully. -/
theorem claim_C3_bad_line_recovery (line : List Char) (di : Nat)
    (hfind : List.findIdx? matchesDate (splitWs line) = some di)
    (hbad : ((splitWs line).drop (di + 1)).length ≠ 7) :
    parse_data_line line =
      .error (.valueError
        (errMsg ((splitWs line).drop (di + 1)).length line)) ∧
    line <:+: errMsg ((splitWs line).drop (di + 1)).length line ∧
    (Nat.repr ((splitWs line).drop (di + 1)).length).data <:+:
      errMsg ((splitWs line).drop (di + 1)).length line ∧
    (∀ pre post, processLines (pre ++ line :: post) =
      processLines pre ++ processLines post) ∧
    (∀ ls, processLines ls =
      ls.filterMap (fun l => (parse_data_line l).toOption)) := by
  have herr : parse_data_line line =
      .error (.valueError
        (errMsg ((splitWs line).drop (di + 1)).length line)) := by
    cases htok : splitWs line with
    | nil =>
      rw [htok] at hfind
      simp at hfind
    | cons t0 rest =>
      rw [htok] at hfind hbad
      unfold parse_data_line
      rw [htok, parseTokens_found line t0 rest di hfind]
      simp at hbad
      simp [hbad]
  refine ⟨herr, ?_, ?_, ?_, processLines_filterMap⟩
  · exact ⟨"Expected 7 scores, got ".data ++
      (Nat.repr ((splitWs line).drop (di + 1)).length).data ++
      " in line: ".data, [], by simp [errMsg]⟩
  · exact ⟨"Expected 7 scores, got ".data,
      " in line: ".data ++ line, by simp [errMsg]⟩
  · intro pre post
    rw [processLines_append]
    have : processLines (line :: post) = processLines post := by
      simp [processLines, herr]
    rw [this]

/-- C3 witness: a 6-trailing-token line yields the structured ValueError and
is skipped by the loop, which still parses its neighbours. -/
theorem claim_C3_witness :
    parse_data_line
      "ICVA0001 Jane Q Public 15-MAY-2025 450 88 90 85 92 88".data =
      .error (.valueError
        (errMsg ((splitWs
          "ICVA0001 Jane Q Public 15-MAY-2025 450 88 90 85 92 88".data).drop
            (4 + 1)).length
          "ICVA0001 Jane Q Public 15-MAY-2025 450 88 90 85 92 88".data)) ∧
    processLines
      (["ICVA0002 Ann Smith 15-MAY-2025 400 80 81 82 83 84 85".data] ++
       "ICVA0001 Jane Q Public 15-MAY-2025 450 88 90 85 92 88".data ::
       ["ICVA0003 Bo Li 15-MAY-2025 500 90 91 92 93 94 95".data]) =
    processLines
      ["ICVA0002 Ann Smith 15-MAY-2025 400 80 81 82 83 84 85".data] ++
    processLines
      ["ICVA0003 Bo Li 15-MAY-2025 500 90 91 92 93 94 95".data] := by
  have h := claim_C3_bad_line_recovery
    "ICVA0001 Jane Q Public 15-MAY-2025 450 88 90 85 92 88".data 4
    (by decide) (by decide)
  exact ⟨h.1, h.2.2.2.1
    ["ICVA0002 Ann Smith 15-MAY-2025 400 80 81 82 83 84 85".data]
    ["ICVA0003 Bo Li 15-MAY-2025 500 90 91 92 93 94 95".data]⟩

/-- Helper: the tokenizer worker never returns an empty list when the
current token is nonempty. -/
lemma splitWsAux_ne_nil (l : List Char) :
    ∀ acc : List Char, acc ≠ [] → splitWsAux acc l ≠ [] := by
  induction l with
  | nil =>
    intro acc h
    simp [splitWsAux, h]
  | cons c cs ih =>
    intro acc h
    by_cases hc : isWS c
    · simp [splitWsAux, hc, List.isEmpty_iff, h]
    · exact fun hcontra => ih (c :: acc) (by simp)
        (by simpa [splitWsAux, hc] using hcontra)

/-- C9: the date-token test depends only on the first eleven characters of
the token (acceptance equals the full eleven-character date shape of the
token's 11-prefix, so trailing extra characters are ignored), and the scan
starts at the id token itself: when the first token matches, it is chosen as
the date, so the record's id and test date coincide and the name is empty. -/
theorem claim_C9_prefix_match_scan_from_id :
    (∀ t : List Char, matchesDate t = dateShape (t.take 11)) ∧
    (∀ (t0 : List Char) (rest : List (List Char)), matchesDate t0 = true →
      List.findIdx? matchesDate (t0 :: rest) = some 0) ∧
    (∀ (line t0 : List Char) (rest : List (List Char)),
      splitWs line = t0 :: rest → matchesDate t0 = true →
      rest.length = 7 →
      parse_data_line line =
        .ok ⟨t0, [], t0, rest.getD 0 [], rest.getD 1 [], rest.getD 2 [],
             rest.getD 3 [], rest.getD 4 [], rest.getD 5 [],
             rest.getD 6 []⟩) := by
  refine ⟨?_, ?_, ?_⟩
  · intro t
    rcases t with _ | ⟨a, t⟩
    · rfl
    rcases t with _ | ⟨b, t⟩
    · rfl
    rcases t with _ | ⟨h1, t⟩
    · rfl
    rcases t with _ | ⟨c, t⟩
    · rfl
    rcases t with _ | ⟨d, t⟩
    · rfl
    rcases t with _ | ⟨e, t⟩
    · rfl
    rcases t with _ | ⟨h2, t⟩
    · rfl
    rcases t with _ | ⟨f, t⟩
    · rfl
    rcases t with _ | ⟨g, t⟩
    · rfl
    rcases t with _ | ⟨h, t⟩
    · rfl
    rcases t with _ | ⟨i, t⟩
    · rfl
    simp [matchesDate, dateShape]
  · intro t0 rest h
    simp [List.findIdx?_cons, h]
  · intro line t0 rest hsplit h h7
    have hfind : List.findIdx? matchesDate (t0 :: rest) = some 0 := by
      simp [List.findIdx?_cons, h]
    unfold parse_data_line
    rw [hsplit, parseTokens_found line t0 rest 0 hfind]
    simp [h7, List.getD]
    rfl

/-- C9 witness: the token 15-MAY-20256 (extra trailing digit) is accepted by
the date test, and a line whose very first token matches the pattern uses it
as both id and test date with an empty name. -/
theorem claim_C9_witness :
    matchesDate "15-MAY-20256".data =
      dateShape ("15-MAY-20256".data.take 11) ∧
    matchesDate "15-MAY-20256".data = true ∧
    parse_data_line "15-MAY-2025 450 88 90 85 92 88 91".data =
      .ok ⟨"15-MAY-2025".data, [], "15-MAY-2025".data,
           "450".data, "88".data, "90".data, "85".data, "92".data,
           "88".data, "91".data⟩ := by
  refine ⟨claim_C9_prefix_match_scan_from_id.1 "15-MAY-20256".data,
    by decide, ?_⟩
  have h := claim_C9_prefix_match_scan_from_id.2.2
    "15-MAY-2025 450 88 90 85 92 88 91".data "15-MAY-2025".data
    ["450".data, "88".data, "90".data, "85".data, "92".data, "88".data,
     "91".data] (by decide) (by decide) (by decide)
  simpa using h

/-- C10: a candidate line (one starting with the ICVA sentinel) none of
whose tokens matches the date pattern makes parse_data_line fail with
StopIteration, not ValueError, and the per-line loop still skips it and
continues with the remaining lines. -/
theorem claim_C10_stopiteration_recovery (line : List Char)
    (hcand : "ICVA".data <+: line)
    (hnone : ∀ t ∈ splitWs line, matchesDate t = false) :
    parse_data_line line = .error .stopIteration ∧
    ∀ pre post, processLines (pre ++ line :: post) =
      processLines pre ++ processLines post := by
  obtain ⟨tail, rfl⟩ := hcand
  have hne : splitWs ("ICVA".data ++ tail) ≠ [] :=
    splitWsAux_ne_nil ("CVA".data ++ tail) ['I'] (by simp)
  have herr : parse_data_line ("ICVA".data ++ tail) = .error .stopIteration := by
    unfold parse_data_line
    cases htok : splitWs ("ICVA".data ++ tail) with
    | nil => exact absurd htok hne
    | cons t0 rest =>
      rw [htok] at hnone
      simp [parseTokens, findIdx?_none matchesDate (t0 :: rest) hnone]
  refine ⟨herr, fun pre post => ?_⟩
  rw [processLines_append]
  have : processLines (("ICVA".data ++ tail) :: post) = processLines post := by
    simp [processLines,
      show parse_data_line ('I' :: 'C' :: 'V' :: 'A' :: tail) =
        .error .stopIteration from herr]
  rw [this]

/-- C10 witness: a sentinel line with no date token is dropped with
StopIteration while its neighbours still parse. -/
theorem claim_C10_witness :
    parse_data_line "ICVA0001 Jane".data = .error .stopIteration ∧
    processLines
      (["ICVA0002 Ann Smith 15-MAY-2025 400 80 81 82 83 84 85".data] ++
       "ICVA0001 Jane".data ::
       ["ICVA0004 Cy Fox 15-MAY-2025 300 70 71 72 73 74 75".data]) =
    processLines
      ["ICVA0002 Ann Smith 15-MAY-2025 400 80 81 82 83 84 85".data] ++
    processLines
      ["ICVA0004 Cy Fox 15-MAY-2025 300 70 71 72 73 74 75".data] := by
  have h := claim_C10_stopiteration_recovery "ICVA0001 Jane".data
    ⟨"0001 Jane".data, by decide⟩ (by decide)
  exact ⟨h.1, h.2
    ["ICVA0002 Ann Smith 15-MAY-2025 400 80 81 82 83 84 85".data]
    ["ICVA0004 Cy Fox 15-MAY-2025 300 70 71 72 73 74 75".data]⟩

/-- Helper: intercalate unfolded on a list of two or more pieces. -/
lemma intercalate_cons_cons {α : Type} (sep x y : List α) (ys : List (List α)) :
    List.intercalate sep (x :: y :: ys) =
      x ++ sep ++ List.intercalate sep (y :: ys) := by
  simp [List.intercalate, List.intersperse_cons_cons]

/-- Helper: every piece is an infix of the intercalation. -/
lemma infix_intercalate {α : Type} (sep : List α) :
    ∀ (l : List (List α)) (a : List α), a ∈ l → a <:+: List.intercalate sep l := by
  intro l
  induction l with
  | nil =>
    intro a ha
    simp at ha
  | cons x xs ih =>
    intro a ha
    rcases List.mem_cons.mp ha with rfl | hmem
    · cases xs with
      | nil => simp [List.intercalate]
      | cons y ys =>
        refine ⟨[], sep ++ List.intercalate sep (y :: ys), ?_⟩
        rw [intercalate_cons_cons]
        simp
    · cases xs with
      | nil => simp at hmem
      | cons y ys =>
        obtain ⟨s, t, hst⟩ := ih a hmem
        refine ⟨x ++ sep ++ s, t, ?_⟩
        rw [intercalate_cons_cons, ← hst]
        simp

/-- Helper: a successful bulk insert appends exactly the input rows. -/
lemma insertAllRows_ok (csvRows : List LoadRow) :
    ∀ db t : List LoadRow, insertAllRows db csvRows = .ok t →
      t = db ++ csvRows := by
  induction csvRows with
  | nil =>
    intro db t h
    simp [insertAllRows] at h
    simp [h.symm]
  | cons r rs ih =>
    intro db t h
    unfold insertAllRows at h
    by_cases hc : r.icva_id ∈ db.map (fun x => x.icva_id)
    · rw [if_pos hc] at h
      simp at h
    · rw [if_neg hc] at h
      have := ih (db ++ [r]) t h
      simp [this]

/-- Helper: a row whose key is already present makes the bulk insert fail. -/
lemma insertAllRows_dup (csvRows : List LoadRow) :
    ∀ db : List LoadRow,
      (∃ r ∈ csvRows, r.icva_id ∈ db.map (fun x => x.icva_id)) →
      ∃ e, insertAllRows db csvRows = .error e := by
  induction csvRows with
  | nil =>
    rintro db ⟨r, hr, -⟩
    simp at hr
  | cons r rs ih =>
    rintro db ⟨r2, hr2, hkey⟩
    unfold insertAllRows
    by_cases hc : r.icva_id ∈ db.map (fun x => x.icva_id)
    · rw [if_pos hc]
      exact ⟨_, rfl⟩
    · rw [if_neg hc]
      rcases List.mem_cons.mp hr2 with rfl | hmem
      · exact absurd hkey hc
      · refine ih (db ++ [r]) ⟨r2, hmem, ?_⟩
        simp only [List.map_append, List.mem_append]
        exact Or.inl hkey

/-- Helper: the worker of date normalization keeps length and names, leaves
non-test_date columns untouched and converts test_date columns. -/
lemma normCols_spec : ∀ df df' : List DFCol, normCols df = .ok df' →
    df'.length = df.length ∧
    ∀ i : Nat, (df'.getD i dfDefault).name = (df.getD i dfDefault).name ∧
      ((df.getD i dfDefault).name ≠ "test_date".data →
        df'.getD i dfDefault = df.getD i dfDefault) ∧
      ((df.getD i dfDefault).name = "test_date".data →
        colToDate (df.getD i dfDefault).cells =
          .ok (df'.getD i dfDefault).cells) := by
  intro df
  induction df with
  | nil =>
    intro df' h
    simp [normCols] at h
    subst h
    refine ⟨rfl, fun i => ?_⟩
    have hd : ([] : List DFCol).getD i dfDefault = dfDefault := by
      cases i <;> rfl
    rw [hd]
    exact ⟨rfl, fun _ => rfl, fun habs => absurd habs (by decide)⟩
  | cons col cols ih =>
    intro df' h
    unfold normCols at h
    by_cases hname : col.name = "test_date".data
    · rw [if_pos hname] at h
      cases hcd : colToDate col.cells with
      | error e =>
        rw [hcd] at h
        simp at h
      | ok cs =>
        rw [hcd] at h
        cases hnc : normCols cols with
        | error e =>
          rw [hnc] at h
          simp at h
        | ok cols2 =>
          rw [hnc] at h
          simp at h
          subst h
          obtain ⟨hlen, hps⟩ := ih cols2 hnc
          refine ⟨by simp [hlen], fun i => ?_⟩
          cases i with
          | zero =>
            refine ⟨rfl, fun hcontra => absurd hname hcontra, fun _ => ?_⟩
            simpa using hcd
          | succ n =>
            simpa [List.getD_cons_succ] using hps n
    · rw [if_neg hname] at h
      cases hnc : normCols cols with
      | error e =>
        rw [hnc] at h
        simp at h
      | ok cols2 =>
        rw [hnc] at h
        simp at h
        subst h
        obtain ⟨hlen, hps⟩ := ih cols2 hnc
        refine ⟨by simp [hlen], fun i => ?_⟩
        cases i with
        | zero =>
          exact ⟨rfl, fun _ => rfl, fun habs => absurd habs hname⟩
        | succ n =>
          simpa [List.getD_cons_succ] using hps n

/-- Helper: characters of an intercalation come from the separator or from
one of the pieces. -/
lemma mem_intercalate {α : Type} (sep : List α) :
    ∀ (L : List (List α)) (c : α), c ∈ List.intercalate sep L →
      c ∈ sep ∨ ∃ t ∈ L, c ∈ t := by
  intro L
  induction L with
  | nil =>
    intro c hc
    simp [List.intercalate] at hc
  | cons x xs ih =>
    intro c hc
    cases xs with
    | nil =>
      simp [List.intercalate] at hc
      exact Or.inr ⟨x, by simp, hc⟩
    | cons y ys =>
      rw [intercalate_cons_cons] at hc
      rcases List.mem_append.mp hc with hxy | hrest
      · rcases List.mem_append.mp hxy with hx | hsep
        · exact Or.inr ⟨x, by simp, hx⟩
        · exact Or.inl hsep
      · rcases ih c hrest with h | ⟨t, ht, hct⟩
        · exact Or.inl h
        · exact Or.inr ⟨t, by simp [ht], hct⟩

/-- Helper: getD yields the default or a member of the list. -/
lemma getD_mem_or {α : Type} (l : List α) (n : Nat) (d : α) :
    l.getD n d = d ∨ l.getD n d ∈ l := by
  by_cases h : n < l.length
  · right
    rw [List.getD_eq_getElem l d h]
    exact List.getElem_mem h
  · left
    exact List.getD_eq_default l d (Nat.le_of_not_lt h)

/-- Helper: tokens produced by the whitespace tokenizer contain no
whitespace character. -/
lemma splitWsAux_no_ws :
    ∀ l acc : List Char, (∀ c ∈ acc, isWS c = false) →
      ∀ t ∈ splitWsAux acc l, ∀ c ∈ t, isWS c = false := by
  intro l
  induction l with
  | nil =>
    intro acc hacc t ht c hc
    by_cases he : acc.isEmpty
    · simp [splitWsAux, he] at ht
    · simp [splitWsAux, he] at ht
      subst ht
      exact hacc c (by simpa using hc)
  | cons d ds ih =>
    intro acc hacc t ht c hc
    by_cases hd : isWS d
    · by_cases he : acc.isEmpty
      · rw [show splitWsAux acc (d :: ds) = splitWsAux [] ds by
          simp [splitWsAux, hd, he]] at ht
        exact ih [] (by simp) t ht c hc
      · rw [show splitWsAux acc (d :: ds) =
            acc.reverse :: splitWsAux [] ds by
          simp [splitWsAux, hd, he]] at ht
        rcases List.mem_cons.mp ht with rfl | ht
        · exact hacc c (by simpa using hc)
        · exact ih [] (by simp) t ht c hc
    · rw [show splitWsAux acc (d :: ds) = splitWsAux (d :: acc) ds by
        simp [splitWsAux, hd]] at ht
      refine ih (d :: acc) ?_ t ht c hc
      intro x hx
      rcases List.mem_cons.mp hx with rfl | hx
      · simpa using hd
      · exact hacc x hx

/-- Helper: every field of a successfully parsed record is free of carriage
returns and line feeds, because tokens carry no whitespace. -/
lemma parse_ok_fields_noCRLF (line : List Char) (r : ExamRow)
    (h : parse_data_line line = .ok r) :
    ∀ f ∈ rowFields r, noCRLF f := by
  have htok0 : ∀ t ∈ splitWs line, ∀ c ∈ t, isWS c = false :=
    splitWsAux_no_ws line [] (by simp)
  unfold parse_data_line at h
  cases hsp : splitWs line with
  | nil =>
    rw [hsp] at h
    simp [parseTokens] at h
  | cons t0 rest =>
    rw [hsp] at h htok0
    have hnc : ∀ t ∈ t0 :: rest, noCRLF t := by
      intro t ht c hc
      have hws := htok0 t ht c hc
      constructor <;> rintro rfl <;> simp [isWS] at hws
    have hnil : noCRLF ([] : List Char) := by
      intro c hc
      simp at hc
    have hgetD : ∀ di : Nat, noCRLF ((t0 :: rest).getD di []) := by
      intro di
      rcases getD_mem_or (t0 :: rest) di [] with hdef | hmem
      · rw [hdef]
        exact hnil
      · exact hnc _ hmem
    have hdropD : ∀ di k : Nat,
        noCRLF (((t0 :: rest).drop di).getD k []) := by
      intro di k
      rcases getD_mem_or ((t0 :: rest).drop di) k [] with hdef | hmem
      · rw [hdef]
        exact hnil
      · exact hnc _ ((List.drop_sublist di (t0 :: rest)).subset hmem)
    cases hfind : List.findIdx? matchesDate (t0 :: rest) with
    | none =>
      rw [show parseTokens line (t0 :: rest) = .error .stopIteration from by
        simp [parseTokens, hfind]] at h
      simp at h
    | some di =>
      rw [parseTokens_found line t0 rest di hfind] at h
      by_cases h7 : ((t0 :: rest).drop (di + 1)).length = 7
      · rw [if_pos h7] at h
        injection h with h2
        subst h2
        intro f hf
        simp only [rowFields, List.mem_cons, List.not_mem_nil, or_false] at hf
        rcases hf with rfl | rfl | rfl | rfl | rfl | rfl | rfl | rfl | rfl | rfl
        · exact hnc _ (by simp)
        · intro c hc
          rcases mem_intercalate [' '] _ c hc with hsep | ⟨t, ht, hct⟩
          · have hcs : c = ' ' := by simpa using hsep
            subst hcs
            exact ⟨by decide, by decide⟩
          · refine hnc t ?_ c hct
            exact (List.take_sublist _ _).subset
              ((List.drop_sublist _ _).subset ht)
        · exact hgetD _
        · exact hdropD _ 0
        · exact hdropD _ 1
        · exact hdropD _ 2
        · exact hdropD _ 3
        · exact hdropD _ 4
        · exact hdropD _ 5
        · exact hdropD _ 6
      · rw [if_neg h7] at h
        simp at h

/-- Helper: characters produced by quote doubling are quotes or characters
of the field. -/
lemma mem_escQuotes (f : List Char) :
    ∀ c ∈ escQuotes f, c = '"' ∨ c ∈ f := by
  induction f with
  | nil =>
    intro c hc
    simp [escQuotes] at hc
  | cons d ds ih =>
    intro c hc
    by_cases hd : d = '"'
    · subst hd
      simp only [escQuotes, if_true, List.mem_cons] at hc
      rcases hc with rfl | rfl | hc
      · exact Or.inl rfl
      · exact Or.inl rfl
      · rcases ih c hc with h | h
        · exact Or.inl h
        · exact Or.inr (by simp [h])
    · rw [show escQuotes (d :: ds) = d :: escQuotes ds from by
        simp [escQuotes, hd]] at hc
      rcases List.mem_cons.mp hc with rfl | hc
      · exact Or.inr (by simp)
      · rcases ih c hc with h | h
        · exact Or.inl h
        · exact Or.inr (by simp [h])

/-- Helper: encoding a CR/LF-free field yields CR/LF-free output. -/
lemma encField_noCRLF (f : List Char) (h : noCRLF f) :
    noCRLF (encField f) := by
  unfold encField
  by_cases hq : needsQuote f
  · rw [if_pos hq]
    intro c hc
    rcases List.mem_cons.mp hc with rfl | hc
    · exact ⟨by decide, by decide⟩
    · rcases List.mem_append.mp hc with hc | hc
      · rcases mem_escQuotes f c hc with rfl | hc
        · exact ⟨by decide, by decide⟩
        · exact h c hc
      · have : c = '"' := by simpa using hc
        subst this
        exact ⟨by decide, by decide⟩
  · rw [if_neg hq]
    exact h

/-- Helper: an encoded row of CR/LF-free fields is CR/LF-free. -/
lemma encRow_noCRLF (fs : List (List Char)) (h : ∀ f ∈ fs, noCRLF f) :
    noCRLF (encRow fs) := by
  intro c hc
  rcases mem_intercalate [','] _ c hc with hsep | ⟨t, ht, hct⟩
  · have : c = ',' := by simpa using hsep
    subst this
    exact ⟨by decide, by decide⟩
  · obtain ⟨f, hf, rfl⟩ := List.mem_map.mp ht
    exact encField_noCRLF f (h f hf) c hct

/-- Helper: a field of a non-quoted encoding contains neither comma nor
quote. -/
lemma no_special_of_not_needsQuote (f : List Char)
    (hq : ¬ needsQuote f = true) : ∀ c ∈ f, c ≠ ',' ∧ c ≠ '"' := by
  intro c hc
  constructor <;> rintro rfl <;> exact hq (by
    unfold needsQuote
    rw [List.any_eq_true]
    exact ⟨_, hc, by simp⟩)

/-- Helper: the unquoted lexer consumes plain characters into the current
field. -/
lemma pUnq_plain (f : List Char) (hf : ∀ c ∈ f, c ≠ ',' ∧ c ≠ '"') :
    ∀ acc rest, pUnq acc (f ++ rest) = pUnq (f.reverse ++ acc) rest := by
  induction f with
  | nil =>
    intro acc rest
    simp
  | cons d ds ih =>
    intro acc rest
    have hd := hf d (by simp)
    have hds : ∀ c ∈ ds, c ≠ ',' ∧ c ≠ '"' := fun c hc => hf c (by simp [hc])
    rw [List.cons_append]
    rw [show pUnq acc (d :: (ds ++ rest)) = pUnq (d :: acc) (ds ++ rest) from by
      simp [pUnq, hd.1, hd.2]]
    rw [ih hds (d :: acc) rest]
    simp

/-- Helper: the quoted lexer consumes a quote-doubled field up to the
closing quote. -/
lemma pQ_esc (f : List Char) :
    ∀ acc rest, pQ acc (escQuotes f ++ '"' :: rest) =
      pQQ (f.reverse ++ acc) rest := by
  induction f with
  | nil =>
    intro acc rest
    simp [escQuotes, pQ]
  | cons d ds ih =>
    intro acc rest
    by_cases hd : d = '"'
    · subst hd
      rw [show escQuotes ('"' :: ds) = '"' :: '"' :: escQuotes ds from by
        simp [escQuotes]]
      rw [List.cons_append, List.cons_append]
      rw [show pQ acc ('"' :: ('"' :: (escQuotes ds ++ '"' :: rest))) =
          pQQ acc ('"' :: (escQuotes ds ++ '"' :: rest)) from by simp [pQ]]
      rw [show pQQ acc ('"' :: (escQuotes ds ++ '"' :: rest)) =
          pQ ('"' :: acc) (escQuotes ds ++ '"' :: rest) from by simp [pQQ]]
      rw [ih ('"' :: acc) rest]
      simp
    · rw [show escQuotes (d :: ds) = d :: escQuotes ds from by
        simp [escQuotes, hd]]
      rw [List.cons_append]
      rw [show pQ acc (d :: (escQuotes ds ++ '"' :: rest)) =
          pQ (d :: acc) (escQuotes ds ++ '"' :: rest) from by simp [pQ, hd]]
      rw [ih (d :: acc) rest]
      simp

/-- Helper: an encoded field standing alone lexes back to itself. -/
lemma pUnq_encField_nil (f : List Char) : pUnq [] (encField f) = [f] := by
  unfold encField
  by_cases hq : needsQuote f
  · rw [if_pos hq]
    rw [show ('"' :: (escQuotes f ++ ['"'])) = '"' :: (escQuotes f ++ '"' :: [])
      from by simp]
    rw [show pUnq [] ('"' :: (escQuotes f ++ '"' :: [])) =
        pQ [] (escQuotes f ++ '"' :: []) from by simp [pUnq]]
    rw [pQ_esc f [] []]
    simp [pQQ]
  · rw [if_neg hq]
    have h := pUnq_plain f (no_special_of_not_needsQuote f hq) [] []
    rw [List.append_nil] at h
    rw [h]
    simp [pUnq]

/-- Helper: an encoded field followed by a comma lexes back to itself and
the lexing continues after the comma. -/
lemma pUnq_encField_comma (f more : List Char) :
    pUnq [] (encField f ++ ',' :: more) = f :: pUnq [] more := by
  unfold encField
  by_cases hq : needsQuote f
  · rw [if_pos hq]
    rw [show ('"' :: (escQuotes f ++ ['"'])) ++ ',' :: more =
        '"' :: (escQuotes f ++ '"' :: (',' :: more)) from by simp]
    rw [show pUnq [] ('"' :: (escQuotes f ++ '"' :: (',' :: more))) =
        pQ [] (escQuotes f ++ '"' :: (',' :: more)) from by simp [pUnq]]
    rw [pQ_esc f [] (',' :: more)]
    simp [pQQ]
  · rw [if_neg hq]
    rw [pUnq_plain f (no_special_of_not_needsQuote f hq) [] (',' :: more)]
    simp [pUnq]

/-- Helper: an encoded row lexes back to its fields. -/
lemma pUnq_encRow (fs : List (List Char)) (hne : fs ≠ []) :
    pUnq [] (encRow fs) = fs := by
  induction fs with
  | nil => exact absurd rfl hne
  | cons f fs2 ih =>
    cases fs2 with
    | nil =>
      rw [show encRow [f] = encField f from by simp [encRow, List.intercalate]]
      exact pUnq_encField_nil f
    | cons g gs =>
      rw [show encRow (f :: g :: gs) = encField f ++ ',' :: encRow (g :: gs)
        from by
          rw [encRow, List.map_cons, List.map_cons, intercalate_cons_cons]
          simp [encRow]]
      rw [pUnq_encField_comma]
      rw [ih (by simp)]

/-- Helper: the record splitter recovers one CR/LF-free record up to its
terminator. -/
lemma sRec_line (s : List Char) (hs : noCRLF s) :
    ∀ acc rest, sRec acc (s ++ '\r' :: '\n' :: rest) =
      (acc.reverse ++ s) :: sRec [] rest := by
  induction s with
  | nil =>
    intro acc rest
    simp [sRec, sRecCR]
  | cons d ds ih =>
    intro acc rest
    have hd := hs d (by simp)
    have hds : noCRLF ds := fun c hc => hs c (by simp [hc])
    rw [List.cons_append]
    rw [show sRec acc (d :: (ds ++ '\r' :: '\n' :: rest)) =
        sRec (d :: acc) (ds ++ '\r' :: '\n' :: rest) from by
      simp [sRec, hd.1]]
    rw [ih hds (d :: acc) rest]
    simp

/-- Helper: the record splitter recovers every CR/LF-free record of a
CRLF-terminated file. -/
lemma sRec_rows (rows : List (List Char)) (h : ∀ r ∈ rows, noCRLF r) :
    sRec [] ((rows.map (fun r => r ++ ['\r', '\n'])).flatten) = rows := by
  induction rows with
  | nil => simp [sRec]
  | cons r rs ih =>
    rw [List.map_cons, List.flatten_cons]
    rw [show (r ++ ['\r', '\n']) ++
        (rs.map (fun x => x ++ ['\r', '\n'])).flatten =
        r ++ '\r' :: '\n' :: (rs.map (fun x => x ++ ['\r', '\n'])).flatten
      from by simp]
    rw [sRec_line r (h r (by simp)) [] _]
    rw [ih (fun x hx => h x (by simp [hx]))]
    simp

/-- Helper: reading back a written CSV recovers the header and every row,
provided all fields are CR/LF-free. -/
lemma readCSV_writeCSV (rows : List ExamRow)
    (h : ∀ r ∈ rows, ∀ f ∈ rowFields r, noCRLF f) :
    readCSV (writeCSV rows) = headerFields :: rows.map rowFields := by
  have hhdr : ∀ f ∈ headerFields, noCRLF f := by decide
  have hall : ∀ fs ∈ headerFields :: rows.map rowFields, ∀ f ∈ fs, noCRLF f := by
    intro fs hfs
    rcases List.mem_cons.mp hfs with rfl | hmem
    · exact hhdr
    · obtain ⟨r, hr, rfl⟩ := List.mem_map.mp hmem
      exact h r hr
  have hencnc : ∀ l ∈ (headerFields :: rows.map rowFields).map encRow,
      noCRLF l := by
    intro l hl
    obtain ⟨fs, hfs, rfl⟩ := List.mem_map.mp hl
    exact encRow_noCRLF fs (hall fs hfs)
  unfold readCSV writeCSV
  rw [show (headerFields :: rows.map rowFields).map
      (fun fs => encRow fs ++ ['\r', '\n']) =
      ((headerFields :: rows.map rowFields).map encRow).map
      (fun l => l ++ ['\r', '\n']) from by
        rw [List.map_map]
        rfl]
  rw [sRec_rows _ hencnc]
  rw [List.map_map]
  have hcong : (headerFields :: rows.map rowFields).map
      ((fun l => pUnq [] l) ∘ encRow) =
      (headerFields :: rows.map rowFields).map id := by
    apply List.map_congr_left
    intro fs hfs
    show pUnq [] (encRow fs) = fs
    apply pUnq_encRow
    rcases List.mem_cons.mp hfs with rfl | hmem
    · simp [headerFields]
    · obtain ⟨r, hr, rfl⟩ := List.mem_map.mp hmem
      simp [rowFields]
  rw [hcong, List.map_id]

/-- C4: with the four required variables set and DB_TABLE unset, load_env
succeeds but leaves the table setting as None — not the documented default
vea_2025 — and None would render as the table name None in the CREATE TABLE
statement; with a required setting empty or unset, load_env fails with the
error naming exactly those settings. -/
theorem claim_C4_table_setting_not_defaulted :
    load_env envNoTable =
      .ok ⟨some "cvmdb.westernu.edu".data, some "vea_user".data,
           some "secret".data, some "cvm_prod".data, none⟩ ∧
    pyStr (none : Option (List Char)) = "None".data ∧
    "None".data ≠ "vea_2025".data ∧
    load_env envMissingTwo =
      .error "Missing required env vars: user, database".data := by
  refine ⟨rfl, rfl, by decide, rfl⟩

/-- C5: with valid configuration the loader hands the CSV rows, unfiltered,
to the bulk insert; any input row whose id is already a key of the
destination table makes that insert fail (so nothing is silently
overwritten and nothing is skipped), and a successful insert is exactly an
append of every input row. -/
theorem claim_C5_duplicate_id_aborts_batch (db csvRows : List LoadRow) :
    (∀ env : EnvMap, missingKeys env = [] →
      (runLoader env csvRows db).2 = insertAllRows db csvRows) ∧
    ((∃ r ∈ csvRows, r.icva_id ∈ db.map (fun x => x.icva_id)) →
      ∃ e, insertAllRows db csvRows = .error e) ∧
    (∀ t : List LoadRow, insertAllRows db csvRows = .ok t →
      t = db ++ csvRows) := by
  refine ⟨fun env henv => ?_, insertAllRows_dup csvRows db,
    insertAllRows_ok csvRows db⟩
  unfold runLoader load_env
  rw [if_pos henv]

/-- C5 witness: a file containing a row whose id equals an existing primary
key makes the batch insert fail. -/
theorem claim_C5_witness :
    ∃ e, insertAllRows [⟨"ICVA0001".data, []⟩]
      [⟨"ICVA0002".data, []⟩, ⟨"ICVA0001".data, ["Jane Q Public".data]⟩] =
      .error e := by
  exact (claim_C5_duplicate_id_aborts_batch [⟨"ICVA0001".data, []⟩]
    [⟨"ICVA0002".data, []⟩, ⟨"ICVA0001".data, ["Jane Q Public".data]⟩]).2.1
    ⟨⟨"ICVA0001".data, ["Jane Q Public".data]⟩, by decide, by decide⟩

/-- C6: when any required setting is unset or empty the loader stops at
load_env: no effect (CSV read, connection, table creation, insert) happens,
and the error message names every missing setting. -/
theorem claim_C6_missing_config_fatal_before_io (env : EnvMap)
    (csvRows db : List LoadRow) (hmiss : missingKeys env ≠ []) :
    runLoader env csvRows db = ([], .error (loadEnvErr env)) ∧
    ∀ k ∈ missingKeys env, k <:+: loadEnvErr env := by
  have henv : load_env env = .error (loadEnvErr env) := by
    unfold load_env
    rw [if_neg hmiss]
  constructor
  · unfold runLoader
    rw [henv]
  · intro k hk
    obtain ⟨s, t, hst⟩ := infix_intercalate ", ".data (missingKeys env) k hk
    refine ⟨"Missing required env vars: ".data ++ s, t, ?_⟩
    rw [loadEnvErr, ← hst]
    simp

/-- C6 witness: with DB_USER empty and DB_NAME unset the loader produces no
effect and its error message names both user and database. -/
theorem claim_C6_witness :
    runLoader envMissingTwo [] [] = ([], .error (loadEnvErr envMissingTwo)) ∧
    "user".data <:+: loadEnvErr envMissingTwo ∧
    "database".data <:+: loadEnvErr envMissingTwo := by
  have h := claim_C6_missing_config_fatal_before_io envMissingTwo [] []
    (by decide)
  exact ⟨h.1, h.2 "user".data (by decide), h.2 "database".data (by decide)⟩

/-- C8: if no column is named test_date, date normalization returns the
dataframe unchanged; when it succeeds in general, every column keeps its
name and position, every column not named test_date is untouched, and the
test_date columns hold exactly the reparsed dates of their old cells. -/
theorem claim_C8_date_normalization_frame :
    (∀ df : List DFCol, (∀ col ∈ df, col.name ≠ "test_date".data) →
      normalizeTestDate df = .ok df) ∧
    (∀ df df' : List DFCol, normalizeTestDate df = .ok df' →
      df'.length = df.length ∧
      ∀ i : Nat, (df'.getD i dfDefault).name = (df.getD i dfDefault).name ∧
        ((df.getD i dfDefault).name ≠ "test_date".data →
          df'.getD i dfDefault = df.getD i dfDefault) ∧
        ((df.getD i dfDefault).name = "test_date".data →
          colToDate (df.getD i dfDefault).cells =
            .ok (df'.getD i dfDefault).cells)) := by
  constructor
  · intro df hno
    unfold normalizeTestDate
    rw [if_neg ?_]
    intro hany
    rw [List.any_eq_true] at hany
    obtain ⟨col, hmem, hcol⟩ := hany
    exact hno col hmem (by simpa using hcol)
  · intro df df' h
    unfold normalizeTestDate at h
    by_cases hany : df.any (fun col => col.name = "test_date".data) = true
    · rw [if_pos hany] at h
      exact normCols_spec df df' h
    · rw [if_neg hany] at h
      simp at h
      subst h
      refine ⟨rfl, fun i => ⟨rfl, fun _ => rfl, fun heq => ?_⟩⟩
      by_cases hi : i < df.length
      · have hmem : df.getD i dfDefault ∈ df := by
          rw [List.getD_eq_getElem df dfDefault hi]
          exact List.getElem_mem hi
        rw [List.any_eq_true] at hany
        exact absurd ⟨df.getD i dfDefault, hmem, by simpa using heq⟩ hany
      · rw [List.getD_eq_default df dfDefault (Nat.le_of_not_lt hi)] at heq
        exact absurd heq (by decide)

/-- C8 witness: a dataframe without a test_date column passes through
unchanged, and in one with a test_date column the other columns are
untouched. -/
theorem claim_C8_witness :
    normalizeTestDate [⟨"icva_id".data, [Cell.raw "ICVA0001".data]⟩] =
      .ok [⟨"icva_id".data, [Cell.raw "ICVA0001".data]⟩] ∧
    ([(⟨"test_date".data, [Cell.date 15 5 2025]⟩ : DFCol),
      ⟨"x".data, [Cell.raw "y".data]⟩].getD 1 dfDefault =
     [(⟨"test_date".data, [Cell.raw "15-MAY-2025".data]⟩ : DFCol),
      ⟨"x".data, [Cell.raw "y".data]⟩].getD 1 dfDefault) := by
  constructor
  · exact claim_C8_date_normalization_frame.1
      [⟨"icva_id".data, [Cell.raw "ICVA0001".data]⟩] (by decide)
  · exact ((claim_C8_date_normalization_frame.2
      [⟨"test_date".data, [Cell.raw "15-MAY-2025".data]⟩,
       ⟨"x".data, [Cell.raw "y".data]⟩]
      [⟨"test_date".data, [Cell.date 15 5 2025]⟩,
       ⟨"x".data, [Cell.raw "y".data]⟩]
      rfl).2 1).2.1 (by decide)

/-- C7: writing the records parsed from any list of candidate lines to the
10-column CSV format and re-reading that file recovers the header row and,
for every record, a row with exactly the same field values. -/
theorem claim_C7_write_read_roundtrip (lines : List (List Char)) :
    readCSV (writeCSV (processLines lines)) =
      headerFields :: (processLines lines).map rowFields := by
  apply readCSV_writeCSV
  intro r hr
  rw [processLines_filterMap] at hr
  obtain ⟨line, hline, hparse⟩ := List.mem_filterMap.mp hr
  have hok : parse_data_line line = .ok r := by
    cases hp : parse_data_line line with
    | ok a =>
      rw [hp] at hparse
      simp [Except.toOption] at hparse
      rw [hparse]
    | error e =>
      rw [hp] at hparse
      simp [Except.toOption] at hparse
  exact parse_ok_fields_noCRLF line r hok

end ICVA
